import Mathlib

/-!
Shallow embedding of the arbitration core of this repository
(`nmigen/lib/coding.py` and `nmigen/lib/arbiter.py`).

Fixed-width signals are modelled as natural numbers holding the bit
pattern; a `Signal(w)` value is a `Nat` below `2 ^ w`.  Combinational
expressions become pure functions on `Nat`; the single `sync` register
of the round-robin components (`grant_prev`) becomes explicit state
threaded through tick-indexed trace functions.  Python constructor
code, which can raise `TypeError`, is embedded as `Except String`
computations over a small universe `PyVal` of Python values.
-/

namespace Nmigen

/-! ## Definitions -/

/-- Build a `w`-bit value whose bit `b` is `f b`, for `b < w`.
This models an nMigen `Cat(e_0, ..., e_(w-1))` of 1-bit expressions. -/
def bitVec : Nat → (Nat → Bool) → Nat
  | 0, _ => 0
  | w + 1, f => bitVec w f ||| (if f w then 2 ^ w else 0)

/-- Exclusive left smear, from `coding.py` line 92 and `arbiter.py` line 42:
`Cat(signal[:i].bool() for i in range(signal.nbits))`.  Bit `b` of the
result is 1 iff some bit strictly below `b` is set in `x` (i.e. the low
`b` bits of `x`, `x % 2 ^ b`, are nonzero). -/
def smear_lx (w x : Nat) : Nat :=
  bitVec w (fun b => x % 2 ^ b != 0)

/-- The combinational function of `PrioritySelector.elaborate`
(`coding.py` lines 117-123) and of `_priority_sel` (`arbiter.py`
lines 46-48): `o = i & ~deny` with `deny = _smear_lx(i)`, the
complement taken within the `w`-bit signal width. -/
def priority_sel (w x : Nat) : Nat :=
  x &&& ((2 ^ w - 1) ^^^ smear_lx w x)

/-- The freshly arbitrated grant of `RoundRobinSelector.elaborate`
(`coding.py` lines 286-290), for request vector `i` and register value
`gp` (`grant_prev`), both of width `n`:

* `req_unwrapped = Cat(i & _smear_lx(grant_prev), i)` (width `2n`),
* `psel = PrioritySelector(2n)` applied to it,
* `grant = psel.o[:n] | psel.o[n:]`.

`_rrobin_sel` in `arbiter.py` (lines 51-55) describes the same dataflow
(with its `grant_unwrapped`/`grant_unwrap` name slip repaired). -/
def rrobin_fresh (n gp i : Nat) : Nat :=
  let requ := (i &&& smear_lx n gp) ||| (i <<< n)
  let p := priority_sel (2 * n) requ
  (p &&& (2 ^ n - 1)) ||| (p >>> n)

/-- A grant vector that is one-hot or all-zero. -/
def atMostOneHot (x : Nat) : Prop :=
  x = 0 ∨ ∃ k, x = 2 ^ k

/-- Bit position `b` lies strictly above the index recorded in a one-hot
`lastGrant` value `gp` (false whenever `gp` is zero or not a power of two). -/
def idxAbove (gp b : Nat) : Prop :=
  ∃ k, k < b ∧ gp = 2 ^ k

instance (gp b : Nat) : Decidable (idxAbove gp b) := by
  unfold idxAbove
  infer_instance

/-- Advance policy, from `coding.py` lines 226-238 (also duplicated in
`arbiter.py` lines 78-90). -/
inductive RobinPolicy
  | WITHDRAW
  | CE
deriving DecidableEq

/-- The per-tick advance-enable of `RoundRobinSelector.elaborate`
(`coding.py` lines 292-295): under WITHDRAW, `en = ~((i & grant_prev).bool())`;
under CE, the external `en` input. -/
def rrsel_en (pol : RobinPolicy) (en_in : Bool) (i gp : Nat) : Bool :=
  match pol with
  | RobinPolicy.WITHDRAW => !(i &&& gp != 0)
  | RobinPolicy.CE => en_in

/-- Trace of the `grant_prev` register of `RoundRobinSelector.elaborate`
(`coding.py` lines 286, 297-301): reset value 0; on a tick whose
advance-enable is high, the freshly arbitrated grant is committed
(`m.d.sync += grant_prev.eq(grant)`), otherwise the register holds.
`i` is the per-tick request-vector input stream; `en` the per-tick `en`
input stream (ignored under WITHDRAW). -/
def rrsel_gp (n : Nat) (pol : RobinPolicy) (i : Nat → Nat) (en : Nat → Bool) :
    Nat → Nat
  | 0 => 0
  | t + 1 =>
    let gp := rrsel_gp n pol i en t
    if rrsel_en pol (en t) (i t) gp then rrobin_fresh n gp (i t) else gp

/-- Combinational output `o` of `RoundRobinSelector.elaborate` at tick `t`
(`coding.py` lines 297-301): the fresh grant when the advance-enable is
high, else the retained `grant_prev`. -/
def rrsel_out (n : Nat) (pol : RobinPolicy) (i : Nat → Nat) (en : Nat → Bool)
    (t : Nat) : Nat :=
  let gp := rrsel_gp n pol i en t
  if rrsel_en pol (en t) (i t) gp then rrobin_fresh n gp (i t) else gp

/-- Request stream of the claimed WITHDRAW walk at width 2: requester 0
asserts; requester 1 joins; requester 0 withdraws; requester 1 withdraws. -/
def c4_reqs : Nat → Nat :=
  fun t => List.getD [1, 3, 2, 0] t 0

/-- Register value before arbitrated round `t`, starting from `gp0`,
with per-round request vectors `r`.  An *arbitrated round* is a tick on
which a fresh round of arbitration both runs and is committed: under CE
with `en` held high this is every tick, under WITHDRAW it is every tick
on which the previous grantee has withdrawn (on the intervening hold
ticks `grant_prev` is unchanged, so the register seen by the next
arbitrated round is exactly the previous round's grant). -/
def rrounds_gp (n : Nat) (r : Nat → Nat) (gp0 : Nat) : Nat → Nat
  | 0 => gp0
  | t + 1 => rrobin_fresh n (rrounds_gp n r gp0 t) (r t)

/-- Grant issued at arbitrated round `t`. -/
def rrounds_out (n : Nat) (r : Nat → Nat) (gp0 : Nat) (t : Nat) : Nat :=
  rrobin_fresh n (rrounds_gp n r gp0 t) (r t)

/-- Distance, in arbitrated rounds, from a register state to the round that
grants requester `j` (an upper bound, decreasing along the trace). -/
def rrphi (n j gp : Nat) : Nat :=
  if gp = 0 then j + 1
  else if Nat.log 2 gp < j then j - Nat.log 2 gp else j + n - Nat.log 2 gp

/-! ### The priority arbiters of `arbiter.py`

`ProgPriorityArbiter.elaborate` (lines 166-179) and
`FairAmongEqualsArbiter.elaborate` (lines 205-222) describe the tiered
dataflow below.  The Python in `arbiter.py` contains name slips that make
it unrunnable as written (see the constructor embedding further down, and
`_rrobin_sel`'s `grant_unwrapped`/`grant_unwrap` mismatch, the bare
`n_req` and the never-assigned `self.max_pri` in `elaborate`, and the
transposed indexing `data[i][j]` with a misplaced `.bool()` in
`_bitmap_mux` at line 59); the definitions below embed the circuit those
lines describe with exactly those name slips repaired, matching the
class docstrings. -/

/-- Tier membership vector: `req_levelled[p]`, from `arbiter.py` lines
171-173 — bit `r` is set iff requester `r` requests and its priority
signal currently equals `p`. -/
def req_levelled (n : Nat) (i : Nat) (pri : Nat → Nat) (p : Nat) : Nat :=
  bitVec n (fun r => i.testBit r && (pri r == p))

/-- The per-tier activity flags `Cat(level.bool() for level in req_levelled)`
fed to `_priority_sel` at line 175. -/
def level_flags (n max_pri : Nat) (i : Nat) (pri : Nat → Nat) : Nat :=
  bitVec max_pri (fun p => req_levelled n i pri p != 0)

/-- `_bitmap_mux(sel, data, width)` (`arbiter.py` lines 58-59), with the
evident transposition repaired: output bit `idx` is set iff some selected
row `p` has bit `idx` set. -/
def bitmap_mux (wsel w : Nat) (sel : Nat) (data : Nat → Nat) : Nat :=
  bitVec w (fun idx => (sel &&& bitVec wsel (fun p => (data p).testBit idx)) != 0)

/-- The winning tier's request vector `level_muxed` (`arbiter.py`
lines 175-176 and 215-216): the highest-priority (numerically lowest)
active tier is isolated one-hot by `_priority_sel` over the activity
flags and used to select that tier's membership vector. -/
def level_muxed (n max_pri i : Nat) (pri : Nat → Nat) : Nat :=
  bitmap_mux max_pri n (priority_sel max_pri (level_flags n max_pri i pri))
    (req_levelled n i pri)

/-- The combinational grant of `ProgPriorityArbiter.elaborate` (line 177):
lowest index within the winning tier. -/
def ppa_grant (n max_pri i : Nat) (pri : Nat → Nat) : Nat :=
  priority_sel n (level_muxed n max_pri i pri)

/-- `grant_prev` register trace of `FairAmongEqualsArbiter.elaborate`
(lines 208, 217, 220): reset 0, unconditionally updated every tick with
the rotating grant computed over the winning tier's vector.  `i` and
`pri` are the per-tick input streams. -/
def faea_gp (n max_pri : Nat) (i : Nat → Nat) (pri : Nat → Nat → Nat) :
    Nat → Nat
  | 0 => 0
  | t + 1 => rrobin_fresh n (faea_gp n max_pri i pri t)
      (level_muxed n max_pri (i t) (pri t))

/-- Combinational output of `FairAmongEqualsArbiter.elaborate` (lines
217-219) at tick `t`. -/
def faea_out (n max_pri : Nat) (i : Nat → Nat) (pri : Nat → Nat → Nat)
    (t : Nat) : Nat :=
  rrobin_fresh n (faea_gp n max_pri i pri t)
    (level_muxed n max_pri (i t) (pri t))

/-! ### Python-level construction

Constructors can raise `TypeError`; they are embedded as `Except String`
computations over a small universe `PyVal` of Python values, transcribing
the `isinstance` checks in construction order. -/

/-- A Python value passed to a constructor parameter. -/
inductive PyVal
  | int : Int → PyVal
  | pol : RobinPolicy → PyVal
  | str : String → PyVal
  | obj : PyVal
deriving DecidableEq

/-- `isinstance(v, RobinPolicy)`. -/
def isRobinPolicy : PyVal → Bool
  | PyVal.pol _ => true
  | _ => false

/-- `isinstance(v, int) and v >= 1`. -/
def isPosInt : PyVal → Bool
  | PyVal.int v => 1 ≤ v
  | _ => false

/-- `PrioritySelector.__init__` (`coding.py` lines 112-115): stores the
width and builds three `Signal`s; it performs no validation of its own
(`Signal` construction is framework-external and succeeds for any
nonnegative width). -/
def prioritySelector_init (_width : Int) : Except String Unit :=
  Except.ok ()

/-- `RoundRobinSelector.__init__` (`coding.py` lines 271-281): rejects a
non-`RobinPolicy` policy first, then a non-positive or non-integer
`n_reqs`, each with a `TypeError`. -/
def roundRobinSelector_init (n_reqs policy : PyVal) : Except String Unit :=
  if !isRobinPolicy policy then
    Except.error "policy must be a RobinPolicy"
  else if !isPosInt n_reqs then
    Except.error "n_reqs must be a positive integer"
  else
    Except.ok ()

/-- `RoundRobinEncoder.__init__` (`coding.py` lines 324-331): stores its
arguments and builds `Signal`s; it performs no validation of its own —
in particular an unrecognized `policy` value is accepted silently (it is
only compared against `RobinPolicy.CE` to decide whether to create
`en`). -/
def roundRobinEncoder_init (_n_reqs : Int) (_policy : PyVal) : Except String Unit :=
  Except.ok ()

/-- A call of `ArbiterInterface.__init__` (`arbiter.py` lines 31-36) with
the given list of explicit positional arguments.  The method takes one
argument, `n_req`; a two-argument call is an arity `TypeError`, raised
before the body runs. -/
def arbiterInterface_init_call (args : List PyVal) : Except String Unit :=
  match args with
  | [PyVal.int v] =>
    if v < 1 then Except.error "n_req must be a positive integer"
    else Except.ok ()
  | [_] => Except.error "n_req must be a positive integer"
  | _ => Except.error "__init__() takes 2 positional arguments but 3 were given"

/-- `RoundRobinArbiter.__init__` (`arbiter.py` lines 115-121): it calls
`super().__init__(self, n_req)`, passing the instance itself as an extra
positional argument, then would check the policy. -/
def roundRobinArbiter_init (n_req policy : PyVal) : Except String Unit :=
  arbiterInterface_init_call [PyVal.obj, n_req] >>= fun _ =>
    if !isRobinPolicy policy then
      Except.error "policy must be a RobinPolicy"
    else
      Except.ok ()

/-- `ProgPriorityArbiter.__init__` (`arbiter.py` lines 157-164): the same
`super().__init__(self, n_req)` call, then the `max_pri` defaulting and
check. -/
def progPriorityArbiter_init (n_req : PyVal) (max_pri : Option PyVal) :
    Except String Unit :=
  arbiterInterface_init_call [PyVal.obj, n_req] >>= fun _ =>
    let mp := match max_pri with
      | none => n_req
      | some v => v
    if !isPosInt mp then
      Except.error "max_pri must be a positive integer"
    else
      Except.ok ()

/-- `FairAmongEqualsArbiter.__init__` (`arbiter.py` lines 196-203):
identical body to `ProgPriorityArbiter.__init__`. -/
def fairAmongEqualsArbiter_init (n_req : PyVal) (max_pri : Option PyVal) :
    Except String Unit :=
  arbiterInterface_init_call [PyVal.obj, n_req] >>= fun _ =>
    let mp := match max_pri with
      | none => n_req
      | some v => v
    if !isPosInt mp then
      Except.error "max_pri must be a positive integer"
    else
      Except.ok ()

/-! ## Bit-level lemmas -/

theorem bitVec_testBit (w : Nat) (f : Nat → Bool) (b : Nat) :
    (bitVec w f).testBit b = (decide (b < w) && f b) := by
  induction w with
  | zero => simp [bitVec, Nat.zero_testBit]
  | succ w ih =>
    simp only [bitVec, Nat.testBit_or, ih]
    have haux : (if f w then 2 ^ w else 0).testBit b = (decide (w = b) && f w) := by
      rcases h : f w <;> simp [h, Nat.zero_testBit, Nat.testBit_two_pow]
    rw [haux]
    by_cases h1 : b < w
    · have h2 : ¬ w = b := by omega
      have h3 : b < w + 1 := by omega
      simp [h1, h2, h3]
    · by_cases h2 : b = w
      · subst h2; simp
      · have h3 : ¬ w = b := fun hh => h2 hh.symm
        have h4 : ¬ b < w + 1 := by omega
        simp [h1, h3, h4]

theorem smear_lx_testBit (w x b : Nat) :
    (smear_lx w x).testBit b = (decide (b < w) && decide (x % 2 ^ b ≠ 0)) := by
  simp only [smear_lx, bitVec_testBit]
  congr 1
  by_cases h : x % 2 ^ b = 0 <;> simp [h]

/-- The low bits of `x` below `b` are nonzero iff some bit below `b` is set. -/
theorem mod_two_pow_ne_zero_iff (x b : Nat) :
    x % 2 ^ b ≠ 0 ↔ ∃ c, c < b ∧ x.testBit c := by
  constructor
  · intro h
    rcases Nat.ne_zero_implies_bit_true h with ⟨c, hc⟩
    rw [Nat.testBit_mod_two_pow] at hc
    rcases Bool.and_eq_true_iff.mp hc with ⟨h1, h2⟩
    exact ⟨c, of_decide_eq_true h1, h2⟩
  · rintro ⟨c, hcb, hc⟩ h0
    have : (x % 2 ^ b).testBit c = true := by
      simp [Nat.testBit_mod_two_pow, hcb, hc]
    rw [h0, Nat.zero_testBit] at this
    exact Bool.false_ne_true this

theorem priority_sel_testBit (w x b : Nat) :
    (priority_sel w x).testBit b =
      (x.testBit b && decide (b < w) && !decide (∃ c, c < b ∧ x.testBit c)) := by
  have hb2 : decide (x % 2 ^ b ≠ 0) = decide (∃ c, c < b ∧ x.testBit c) := by
    by_cases h : x % 2 ^ b ≠ 0
    · simp [h, (mod_two_pow_ne_zero_iff x b).mp h]
    · have h2 : ¬ ∃ c, c < b ∧ x.testBit c := fun hc =>
        h ((mod_two_pow_ne_zero_iff x b).mpr hc)
      simp [h, h2]
  simp only [priority_sel, Nat.testBit_and, Nat.testBit_xor,
    Nat.testBit_two_pow_sub_one, smear_lx_testBit, hb2]
  by_cases hbw : b < w <;> rcases hx : x.testBit b <;>
    rcases hc : decide (∃ c, c < b ∧ x.testBit c) <;> simp [hbw]

/-- A set bit of a `w`-bit value lies below `w`. -/
theorem testBit_lt_width {x w b : Nat} (hx : x < 2 ^ w) (hb : x.testBit b = true) :
    b < w := by
  by_contra h
  have h1 : 2 ^ w ≤ 2 ^ b := Nat.pow_le_pow_right (by omega) (by omega)
  have h2 : 2 ^ b ≤ x := Nat.testBit_implies_ge hb
  omega

/-- Any nonempty decidable set of naturals has a least element. -/
theorem exists_least {P : Nat → Prop} [DecidablePred P] (h : ∃ m, P m) :
    ∃ m, P m ∧ ∀ c, c < m → ¬ P c :=
  ⟨Nat.find h, Nat.find_spec h, fun _ hc => Nat.find_min h hc⟩

theorem priority_sel_zero (w : Nat) : priority_sel w 0 = 0 := by
  simp [priority_sel]

/-- `priority_sel` yields exactly the one-hot mask of the least set bit. -/
theorem priority_sel_eq_pow {w x m : Nat} (hmw : m < w) (hm : x.testBit m = true)
    (hmin : ∀ c, c < m → x.testBit c = false) : priority_sel w x = 2 ^ m := by
  apply Nat.eq_of_testBit_eq
  intro b
  rw [priority_sel_testBit, Nat.testBit_two_pow]
  by_cases hbm : b = m
  · subst hbm
    have hno : ¬ ∃ c, c < b ∧ x.testBit c := by
      rintro ⟨c, hc1, hc2⟩
      rw [hmin c hc1] at hc2
      exact Bool.false_ne_true hc2
    simp [hm, hmw, hno]
  · by_cases hbl : b < m
    · simp only [hmin b hbl, Bool.false_and, Bool.and_false]
      simp
      omega
    · have hyes : ∃ c, c < b ∧ x.testBit c := ⟨m, by omega, hm⟩
      simp [hyes]
      omega

/-- The output of `PrioritySelector` is one-hot or zero. -/
theorem priority_sel_atMostOneHot (w x : Nat) : atMostOneHot (priority_sel w x) := by
  by_cases hx : x = 0
  · subst hx
    exact Or.inl (priority_sel_zero w)
  · rcases exists_least (Nat.ne_zero_implies_bit_true hx) with ⟨m, hm, hmin⟩
    by_cases hmw : m < w
    · exact Or.inr ⟨m, priority_sel_eq_pow hmw hm
        (fun c hc => Bool.eq_false_iff.mpr (hmin c hc))⟩
    · left
      apply Nat.eq_of_testBit_eq
      intro b
      rw [priority_sel_testBit, Nat.zero_testBit]
      by_cases hbw : b < w
      · have hbf : x.testBit b = false :=
          Bool.eq_false_iff.mpr (hmin b (by omega))
        simp [hbf]
      · simp [hbw]

/-! ## Characterization of the rotating fresh grant -/

theorem pow_mod_pow_ne_zero_iff (k b : Nat) : 2 ^ k % 2 ^ b ≠ 0 ↔ k < b := by
  constructor
  · intro h
    by_contra hkb
    have hdvd : 2 ^ b ∣ 2 ^ k := Nat.pow_dvd_pow 2 (by omega)
    exact h (Nat.mod_eq_zero_of_dvd hdvd)
  · intro h
    have heq : 2 ^ k % 2 ^ b = 2 ^ k :=
      Nat.mod_eq_of_lt (Nat.pow_lt_pow_right (by omega) h)
    rw [heq]
    positivity

theorem smear_lx_pow_testBit (n k b : Nat) :
    (smear_lx n (2 ^ k)).testBit b = (decide (b < n) && decide (k < b)) := by
  rw [smear_lx_testBit]
  congr 1
  by_cases h : k < b
  · simp [h, (pow_mod_pow_ne_zero_iff k b).mpr h]
  · have h2 : ¬ 2 ^ k % 2 ^ b ≠ 0 := fun hh => h ((pow_mod_pow_ne_zero_iff k b).mp hh)
    simp [h, h2]

/-- Folding the `2n`-wide one-hot `2 ^ m` back to width `n`, lower-half case. -/
theorem fold_pow_lt {n m : Nat} (h : m < n) :
    (2 ^ m &&& (2 ^ n - 1)) ||| (2 ^ m >>> n) = 2 ^ m := by
  apply Nat.eq_of_testBit_eq
  intro b
  simp only [Nat.testBit_or, Nat.testBit_and, Nat.testBit_shiftRight,
    Nat.testBit_two_pow_sub_one, Nat.testBit_two_pow]
  by_cases hbm : m = b
  · subst hbm
    have h2 : ¬ m = n + m := by omega
    simp [h, h2]
  · have h2 : ¬ m = n + b := by omega
    simp [hbm, h2]

/-- Folding the `2n`-wide one-hot `2 ^ m` back to width `n`, upper-half case. -/
theorem fold_pow_ge {n m : Nat} (h1 : n ≤ m) :
    (2 ^ m &&& (2 ^ n - 1)) ||| (2 ^ m >>> n) = 2 ^ (m - n) := by
  apply Nat.eq_of_testBit_eq
  intro b
  simp only [Nat.testBit_or, Nat.testBit_and, Nat.testBit_shiftRight,
    Nat.testBit_two_pow_sub_one, Nat.testBit_two_pow]
  by_cases hbm : m - n = b
  · have hm : m = n + b := by omega
    simp [hbm, hm]
  · have h2 : ¬ m = n + b := by omega
    by_cases hmb2 : m = b
    · have hbn : ¬ b < n := by omega
      simp [hmb2, hbn, h2, hbm]
      omega
    · simp [hmb2, h2, hbm]

/-- An idle request vector yields an idle fresh grant. -/
theorem rrobin_fresh_zero_req (n gp : Nat) : rrobin_fresh n gp 0 = 0 := by
  simp [rrobin_fresh, priority_sel_zero, Nat.zero_shiftLeft]

/-- When some request sits strictly above the last granted index, the fresh
grant is one-hot at the lowest such request. -/
theorem rrobin_fresh_eq_above {n k i m : Nat} (hi : i < 2 ^ n) (_hk : k < n)
    (hm : i.testBit m = true) (hmk : k < m)
    (hmin : ∀ c, c < m → ¬(i.testBit c = true ∧ k < c)) :
    rrobin_fresh n (2 ^ k) i = 2 ^ m := by
  have hmn : m < n := testBit_lt_width hi hm
  show (priority_sel (2 * n) ((i &&& smear_lx n (2 ^ k)) ||| (i <<< n)) &&& (2 ^ n - 1)) |||
      (priority_sel (2 * n) ((i &&& smear_lx n (2 ^ k)) ||| (i <<< n)) >>> n) = 2 ^ m
  rw [priority_sel_eq_pow (x := (i &&& smear_lx n (2 ^ k)) ||| (i <<< n))
    (m := m) (by omega) ?hbit ?hmin2]
  · exact fold_pow_lt hmn
  case hbit =>
    simp only [Nat.testBit_or, Nat.testBit_and, Nat.testBit_shiftLeft,
      smear_lx_pow_testBit]
    have hnm : ¬ n ≤ m := by omega
    simp [hm, hmn, hmk, hnm]
  case hmin2 =>
    intro c hc
    simp only [Nat.testBit_or, Nat.testBit_and, Nat.testBit_shiftLeft,
      smear_lx_pow_testBit]
    have hcn : ¬ n ≤ c := by omega
    by_cases hic : i.testBit c = true
    · have hkc : ¬ k < c := fun hh => hmin c hc ⟨hic, hh⟩
      simp [hic, hkc, hcn]
    · simp [Bool.eq_false_iff.mpr hic, hcn]

/-- When the eligible-above mask is empty, the fresh grant wraps around to
the lowest set request bit overall. -/
theorem rrobin_fresh_eq_wrap {n gp i m : Nat} (hi : i < 2 ^ n)
    (hel : i &&& smear_lx n gp = 0)
    (hm : i.testBit m = true) (hmin : ∀ c, c < m → i.testBit c = false) :
    rrobin_fresh n gp i = 2 ^ m := by
  have hmn : m < n := testBit_lt_width hi hm
  show (priority_sel (2 * n) ((i &&& smear_lx n gp) ||| (i <<< n)) &&& (2 ^ n - 1)) |||
      (priority_sel (2 * n) ((i &&& smear_lx n gp) ||| (i <<< n)) >>> n) = 2 ^ m
  rw [hel, Nat.zero_or]
  rw [priority_sel_eq_pow (x := i <<< n) (m := n + m) (by omega) ?hbit ?hmin2]
  · rw [fold_pow_ge (n := n) (m := n + m) (by omega)]
    congr 1
    omega
  case hbit =>
    simp only [Nat.testBit_shiftLeft]
    have h1 : n ≤ n + m := by omega
    have h2 : n + m - n = m := by omega
    simp [h1, h2, hm]
  case hmin2 =>
    intro c hc
    simp only [Nat.testBit_shiftLeft]
    by_cases hcn : n ≤ c
    · have hif : i.testBit (c - n) = false := hmin (c - n) (by omega)
      simp [hcn, hif]
    · simp [hcn]

/-- When `lastGrant` is one-hot at `k` but nothing above `k` is requested,
the eligible-above mask is empty. -/
theorem eligible_zero_of_no_above {n k i : Nat}
    (hnone : ∀ b, ¬(i.testBit b = true ∧ k < b)) :
    i &&& smear_lx n (2 ^ k) = 0 := by
  apply Nat.eq_of_testBit_eq
  intro b
  simp only [Nat.testBit_and, smear_lx_pow_testBit, Nat.zero_testBit]
  by_cases hib : i.testBit b = true
  · have hkb : ¬ k < b := fun hh => hnone b ⟨hib, hh⟩
    simp [hkb]
  · simp [Bool.eq_false_iff.mpr hib]

/-- When `lastGrant` is zero, the eligible-above mask is empty. -/
theorem eligible_zero_of_gp_zero (n i : Nat) : i &&& smear_lx n 0 = 0 := by
  apply Nat.eq_of_testBit_eq
  intro b
  simp [Nat.testBit_and, smear_lx_testBit, Nat.zero_mod]

/-- All set bits of `priority_sel w x` lie below `w`, so the value fits in
`w` bits. -/
theorem priority_sel_lt (w x : Nat) : priority_sel w x < 2 ^ w := by
  by_contra h
  rcases Nat.ge_two_pow_implies_high_bit_true
    (x := priority_sel w x) (n := w) (by omega) with ⟨b, hbw, hb⟩
  rw [priority_sel_testBit] at hb
  rcases Bool.and_eq_true_iff.mp hb with ⟨hb1, _⟩
  rcases Bool.and_eq_true_iff.mp hb1 with ⟨_, hb3⟩
  have := of_decide_eq_true hb3
  omega

/-- A `bitVec` of width `w` fits in `w` bits. -/
theorem bitVec_lt (w : Nat) (f : Nat → Bool) : bitVec w f < 2 ^ w := by
  by_contra h
  rcases Nat.ge_two_pow_implies_high_bit_true
    (x := bitVec w f) (n := w) (by omega) with ⟨b, hbw, hb⟩
  rw [bitVec_testBit] at hb
  rcases Bool.and_eq_true_iff.mp hb with ⟨h1, _⟩
  have := of_decide_eq_true h1
  omega

/-- The winning tier's request vector fits in `n` bits. -/
theorem level_muxed_lt (n max_pri i : Nat) (pri : Nat → Nat) :
    level_muxed n max_pri i pri < 2 ^ n :=
  bitVec_lt n _

/-- The fresh grant is one-hot below width `n`, or zero — for every register
value and every request vector. -/
theorem rrobin_fresh_shape (n gp i : Nat) :
    rrobin_fresh n gp i = 0 ∨ ∃ m, m < n ∧ rrobin_fresh n gp i = 2 ^ m := by
  have hlt := priority_sel_lt (2 * n) ((i &&& smear_lx n gp) ||| (i <<< n))
  rcases priority_sel_atMostOneHot (2 * n) ((i &&& smear_lx n gp) ||| (i <<< n))
    with hz | ⟨m, hm⟩
  · left
    show (priority_sel (2 * n) ((i &&& smear_lx n gp) ||| (i <<< n)) &&& (2 ^ n - 1)) |||
        (priority_sel (2 * n) ((i &&& smear_lx n gp) ||| (i <<< n)) >>> n) = 0
    rw [hz]
    simp
  · have hm2n : m < 2 * n := by
      by_contra hge
      have h1 : 2 ^ (2 * n) ≤ 2 ^ m := Nat.pow_le_pow_right (by omega) (by omega)
      rw [hm] at hlt
      omega
    right
    show ∃ c, c < n ∧
      (priority_sel (2 * n) ((i &&& smear_lx n gp) ||| (i <<< n)) &&& (2 ^ n - 1)) |||
        (priority_sel (2 * n) ((i &&& smear_lx n gp) ||| (i <<< n)) >>> n) = 2 ^ c
    rw [hm]
    by_cases hmn : m < n
    · exact ⟨m, hmn, fold_pow_lt hmn⟩
    · exact ⟨m - n, by omega, fold_pow_ge (by omega)⟩

/-- The fresh grant has at most one bit set, for every register value and
every request vector. -/
theorem rrobin_fresh_atMostOneHot (n gp i : Nat) :
    atMostOneHot (rrobin_fresh n gp i) := by
  rcases rrobin_fresh_shape n gp i with h | ⟨m, _, h⟩
  · exact Or.inl h
  · exact Or.inr ⟨m, h⟩

/-! ## The stateful RoundRobinSelector -/

/-- The `grant_prev` register only ever holds one-hot-below-`n` or zero
values, on every tick, for both policies and all input streams. -/
theorem rrsel_gp_shape (n : Nat) (pol : RobinPolicy) (i : Nat → Nat)
    (en : Nat → Bool) : ∀ t, rrsel_gp n pol i en t = 0 ∨
      ∃ k, k < n ∧ rrsel_gp n pol i en t = 2 ^ k := by
  intro t
  induction t with
  | zero => exact Or.inl rfl
  | succ t ih =>
    have hstep : rrsel_gp n pol i en (t + 1) =
        if rrsel_en pol (en t) (i t) (rrsel_gp n pol i en t)
        then rrobin_fresh n (rrsel_gp n pol i en t) (i t)
        else rrsel_gp n pol i en t := rfl
    rw [hstep]
    by_cases h : rrsel_en pol (en t) (i t) (rrsel_gp n pol i en t) = true
    · rw [if_pos h]
      exact rrobin_fresh_shape n _ (i t)
    · rw [if_neg h]
      exact ih

/-- The output `o` is one-hot-below-`n` or zero, on every tick, for both
policies and all input streams. -/
theorem rrsel_out_shape (n : Nat) (pol : RobinPolicy) (i : Nat → Nat)
    (en : Nat → Bool) (t : Nat) : rrsel_out n pol i en t = 0 ∨
      ∃ k, k < n ∧ rrsel_out n pol i en t = 2 ^ k := by
  unfold rrsel_out
  by_cases h : rrsel_en pol (en t) (i t) (rrsel_gp n pol i en t) = true
  · rw [if_pos h]
    exact rrobin_fresh_shape n _ (i t)
  · rw [if_neg h]
    exact rrsel_gp_shape n pol i en t

/-! ## Liveness of the rotating grant -/

theorem rrounds_gp_shift (n : Nat) (r : Nat → Nat) (gp0 : Nat) (t : Nat) :
    rrounds_gp n r gp0 (t + 1) =
      rrounds_gp n (fun s => r (s + 1)) (rrobin_fresh n gp0 (r 0)) t := by
  induction t with
  | zero => rfl
  | succ t ih =>
    show rrobin_fresh n (rrounds_gp n r gp0 (t + 1)) (r (t + 1)) = _
    rw [ih]
    rfl

theorem rrounds_out_shift (n : Nat) (r : Nat → Nat) (gp0 : Nat) (t : Nat) :
    rrounds_out n r gp0 (t + 1) =
      rrounds_out n (fun s => r (s + 1)) (rrobin_fresh n gp0 (r 0)) t := by
  unfold rrounds_out
  rw [rrounds_gp_shift]

theorem log_two_pow (k : Nat) : Nat.log 2 (2 ^ k) = k :=
  Nat.log_pow (by norm_num) k

theorem rrphi_pow (n j k : Nat) :
    rrphi n j (2 ^ k) = if k < j then j - k else j + n - k := by
  unfold rrphi
  rw [if_neg (by positivity), log_two_pow]

/-- One arbitrated round either grants `j` or strictly decreases the
distance measure, as long as requester `j` keeps requesting. -/
theorem rr_step_progress {n j gp x : Nat} (hx : x < 2 ^ n)
    (hj : x.testBit j = true) (hgp : gp = 0 ∨ ∃ k, k < n ∧ gp = 2 ^ k) :
    ∃ m, m < n ∧ rrobin_fresh n gp x = 2 ^ m ∧
      (m = j ∨ rrphi n j (2 ^ m) < rrphi n j gp) := by
  have hjn : j < n := testBit_lt_width hx hj
  rcases hgp with hgp | ⟨k, hkn, hgp⟩
  · -- lastGrant zero: wrap to the lowest set request bit
    subst hgp
    have hex : ∃ b, x.testBit b = true := ⟨j, hj⟩
    rcases exists_least hex with ⟨m, hm, hmin⟩
    have hmj : m ≤ j := by
      by_contra hh
      exact hmin j (by omega) hj
    have hmn : m < n := by omega
    refine ⟨m, hmn, rrobin_fresh_eq_wrap hx (eligible_zero_of_gp_zero n x) hm
      (fun c hc => Bool.eq_false_iff.mpr (hmin c hc)), ?_⟩
    by_cases hmj2 : m = j
    · exact Or.inl hmj2
    · right
      rw [rrphi_pow, if_pos (by omega)]
      unfold rrphi
      rw [if_pos rfl]
      omega
  · subst hgp
    by_cases habove : ∃ b, x.testBit b = true ∧ k < b
    · -- some request strictly above the last granted index
      rcases exists_least habove with ⟨m, ⟨hm, hkm⟩, hmin⟩
      have hmn : m < n := testBit_lt_width hx hm
      refine ⟨m, hmn, rrobin_fresh_eq_above hx hkn hm hkm
        (fun c hc hcc => hmin c hc hcc), ?_⟩
      by_cases hmj : m = j
      · exact Or.inl hmj
      · right
        rw [rrphi_pow, rrphi_pow]
        by_cases hkj : k < j
        · have hmj2 : m ≤ j := by
            by_contra hh
            exact hmin j (by omega) ⟨hj, hkj⟩
          rw [if_pos (by omega : m < j), if_pos hkj]
          omega
        · have hjm : j < m := by omega
          rw [if_neg (by omega : ¬ m < j), if_neg hkj]
          omega
    · -- nothing above the last granted index: wrap around
      have hnone : ∀ b, ¬(x.testBit b = true ∧ k < b) := by
        intro b hb
        exact habove ⟨b, hb⟩
      have hjk : j ≤ k := by
        by_contra hh
        exact hnone j ⟨hj, by omega⟩
      have hex : ∃ b, x.testBit b = true := ⟨j, hj⟩
      rcases exists_least hex with ⟨m, hm, hmin⟩
      have hmj : m ≤ j := by
        by_contra hh
        exact hmin j (by omega) hj
      have hmn : m < n := by omega
      refine ⟨m, hmn, rrobin_fresh_eq_wrap hx (eligible_zero_of_no_above hnone) hm
        (fun c hc => Bool.eq_false_iff.mpr (hmin c hc)), ?_⟩
      by_cases hmj2 : m = j
      · exact Or.inl hmj2
      · right
        rw [rrphi_pow, rrphi_pow, if_pos (by omega : m < j),
          if_neg (by omega : ¬ k < j)]
        omega

/-- Bounded liveness along arbitrated rounds: if requester `j` requests on
every round, it is granted within `rrphi` rounds. -/
theorem rr_liveness_aux (n j : Nat) : ∀ (v : Nat) (r : Nat → Nat) (gp : Nat),
    (∀ t, r t < 2 ^ n) → (∀ t, (r t).testBit j = true) →
    (gp = 0 ∨ ∃ k, k < n ∧ gp = 2 ^ k) → rrphi n j gp ≤ v →
    ∃ t, t < v ∧ rrounds_out n r gp t = 2 ^ j := by
  intro v
  induction v with
  | zero =>
    intro r gp _ _ hgp hphi
    exfalso
    rcases hgp with hgp | ⟨k, hkn, hgp⟩
    · subst hgp
      unfold rrphi at hphi
      rw [if_pos rfl] at hphi
      omega
    · subst hgp
      rw [rrphi_pow] at hphi
      by_cases hkj : k < j <;> simp [hkj] at hphi <;> omega
  | succ v ih =>
    intro r gp hr hj hgp hphi
    rcases rr_step_progress (hr 0) (hj 0) hgp with ⟨m, hmn, hfresh, hprog⟩
    rcases hprog with hmj | hdec
    · subst hmj
      exact ⟨0, by omega, hfresh⟩
    · have hphi2 : rrphi n j (2 ^ m) ≤ v := by omega
      rcases ih (fun s => r (s + 1)) (2 ^ m) (fun t => hr (t + 1))
        (fun t => hj (t + 1)) (Or.inr ⟨m, hmn, rfl⟩) hphi2 with ⟨t, htv, hout⟩
      refine ⟨t + 1, by omega, ?_⟩
      rw [rrounds_out_shift, hfresh]
      exact hout

/-- The measure never exceeds the requester count. -/
theorem rrphi_le (n j gp : Nat) (hjn : j < n)
    (hgp : gp = 0 ∨ ∃ k, k < n ∧ gp = 2 ^ k) : rrphi n j gp ≤ n := by
  rcases hgp with hgp | ⟨k, _, hgp⟩
  · subst hgp
    unfold rrphi
    rw [if_pos rfl]
    omega
  · subst hgp
    rw [rrphi_pow]
    by_cases hkj : k < j <;> simp [hkj] <;> omega

/-- No starvation along arbitrated rounds: starting from any reachable
register state, a continuously asserted requester is granted within `n`
consecutive arbitrated rounds. -/
theorem rr_liveness (n j : Nat) (r : Nat → Nat) (gp : Nat)
    (hr : ∀ t, r t < 2 ^ n) (hj : ∀ t, (r t).testBit j = true)
    (hgp : gp = 0 ∨ ∃ k, k < n ∧ gp = 2 ^ k) :
    ∃ t, t < n ∧ rrounds_out n r gp t = 2 ^ j := by
  have hjn : j < n := testBit_lt_width (hr 0) (hj 0)
  exact rr_liveness_aux n j n r gp hr hj hgp (rrphi_le n j gp hjn hgp)

/-- Under CE with `en` held high, the selector register follows the
abstract arbitrated-rounds trace. -/
theorem rrsel_ce_gp_eq_rrounds (n : Nat) (i : Nat → Nat) (t : Nat) :
    rrsel_gp n RobinPolicy.CE i (fun _ => true) t = rrounds_gp n i 0 t := by
  induction t with
  | zero => rfl
  | succ t ih =>
    have hstep : rrsel_gp n RobinPolicy.CE i (fun _ => true) (t + 1) =
        rrobin_fresh n (rrsel_gp n RobinPolicy.CE i (fun _ => true) t) (i t) := rfl
    rw [hstep, ih]
    rfl

theorem rrsel_ce_out_eq_rrounds (n : Nat) (i : Nat → Nat) (t : Nat) :
    rrsel_out n RobinPolicy.CE i (fun _ => true) t = rrounds_out n i 0 t := by
  show (if rrsel_en RobinPolicy.CE true (i t) (rrsel_gp n RobinPolicy.CE i (fun _ => true) t)
      then rrobin_fresh n (rrsel_gp n RobinPolicy.CE i (fun _ => true) t) (i t)
      else rrsel_gp n RobinPolicy.CE i (fun _ => true) t) = _
  rw [rrsel_ce_gp_eq_rrounds]
  rfl

/-- The FairAmongEqualsArbiter register trace is the abstract
arbitrated-rounds trace over the tier-masked request stream. -/
theorem faea_gp_eq_rrounds (n max_pri : Nat) (i : Nat → Nat)
    (pri : Nat → Nat → Nat) (t : Nat) :
    faea_gp n max_pri i pri t =
      rrounds_gp n (fun s => level_muxed n max_pri (i s) (pri s)) 0 t := by
  induction t with
  | zero => rfl
  | succ t ih =>
    show rrobin_fresh n (faea_gp n max_pri i pri t) _ = _
    rw [ih]
    rfl

theorem faea_out_eq_rrounds (n max_pri : Nat) (i : Nat → Nat)
    (pri : Nat → Nat → Nat) (t : Nat) :
    faea_out n max_pri i pri t =
      rrounds_out n (fun s => level_muxed n max_pri (i s) (pri s)) 0 t := by
  unfold faea_out rrounds_out
  rw [faea_gp_eq_rrounds]

/-! ## Claim theorems -/

/-- C1: the at-most-one-hot grant invariant holds for every reachable state
and every input of the two `coding.py` components (PrioritySelector and
RoundRobinSelector under both policies); the `arbiter.py` components
(RoundRobinArbiter, ProgPriorityArbiter, FairAmongEqualsArbiter) never
produce any grant at all, because every construction — with valid
parameters or not — raises an arity `TypeError` from the slip
`super().__init__(self, n_req)`. -/
theorem C1_grant_at_most_one_hot :
    (∀ w x, x < 2 ^ w → atMostOneHot (priority_sel w x)) ∧
    (∀ n pol i en t, atMostOneHot (rrsel_out n pol i en t)) ∧
    (∀ nr mp, progPriorityArbiter_init nr mp =
      Except.error "__init__() takes 2 positional arguments but 3 were given") ∧
    (∀ nr mp, fairAmongEqualsArbiter_init nr mp =
      Except.error "__init__() takes 2 positional arguments but 3 were given") ∧
    (∀ nr pol, roundRobinArbiter_init nr pol =
      Except.error "__init__() takes 2 positional arguments but 3 were given") := by
  refine ⟨fun w x _ => priority_sel_atMostOneHot w x, fun n pol i en t => ?_,
    fun nr mp => rfl, fun nr mp => rfl, fun nr pol => rfl⟩
  rcases rrsel_out_shape n pol i en t with h | ⟨k, _, h⟩
  · exact Or.inl h
  · exact Or.inr ⟨k, h⟩

/-- Witness for C1 at a concrete width and input. -/
theorem C1_grant_at_most_one_hot_witness :
    (6 : Nat) < 2 ^ 3 ∧ atMostOneHot (priority_sel 3 6) :=
  ⟨by decide, C1_grant_at_most_one_hot.1 3 6 (by decide)⟩

/-- C2: for every width `W ≥ 1` and input `R` of width `W`,
`PrioritySelector` outputs 0 on 0, otherwise exactly the one-hot mask of
the lowest set index of `R`, each output bit being
`R[b] AND NOT OR(R[0..b-1])`. -/
theorem C2_priority_selector_correct (w R : Nat) (_hw : 1 ≤ w) (hR : R < 2 ^ w) :
    (R = 0 → priority_sel w R = 0) ∧
    (R ≠ 0 → ∃ m, R.testBit m = true ∧ (∀ c, c < m → R.testBit c = false) ∧
      priority_sel w R = 2 ^ m) ∧
    (∀ b, b < w → (priority_sel w R).testBit b =
      (R.testBit b && !decide (∃ c, c < b ∧ R.testBit c))) := by
  refine ⟨?_, ?_, ?_⟩
  · rintro rfl
    exact priority_sel_zero w
  · intro hR0
    rcases exists_least (Nat.ne_zero_implies_bit_true hR0) with ⟨m, hm, hmin⟩
    have hmw : m < w := testBit_lt_width hR hm
    exact ⟨m, hm, fun c hc => Bool.eq_false_iff.mpr (hmin c hc),
      priority_sel_eq_pow hmw hm (fun c hc => Bool.eq_false_iff.mpr (hmin c hc))⟩
  · intro b hbw
    rw [priority_sel_testBit]
    simp [hbw]

/-- Witness for C2: width 4, R = 0b0110 gives O = 0b0010. -/
theorem C2_priority_selector_correct_witness :
    priority_sel 4 6 = 2 ^ 1 := by
  rcases (C2_priority_selector_correct 4 6 (by decide) (by decide)).2.1
    (by decide) with ⟨m, hm, hmin, hout⟩
  have hm1 : m = 1 := by
    have h0 : (6 : Nat).testBit 0 = false := by decide
    by_cases hlt : m < 1
    · interval_cases m
      · rw [h0] at hm
        exact absurd hm (by decide)
    · by_cases hgt : 1 < m
      · have := hmin 1 hgt
        exact absurd this (by decide)
      · omega
  rw [hm1] at hout
  exact hout

/-- C3: on a fresh round of arbitration (any reachable `lastGrant`,
including the initial all-zero state), the fresh grant of
`RoundRobinSelector` is one-hot at the lowest-indexed set request bit
strictly above the index recorded in `lastGrant` if one exists, else
one-hot at the lowest-indexed set request bit overall, and zero when the
request vector is zero. -/
theorem C3_round_robin_fresh_grant (n gp i : Nat) (hi : i < 2 ^ n)
    (hgp : gp = 0 ∨ ∃ k, k < n ∧ gp = 2 ^ k) :
    (i = 0 → rrobin_fresh n gp i = 0) ∧
    (∀ m, i.testBit m = true → idxAbove gp m →
      (∀ c, c < m → ¬(i.testBit c = true ∧ idxAbove gp c)) →
      rrobin_fresh n gp i = 2 ^ m) ∧
    ((¬ ∃ b, i.testBit b = true ∧ idxAbove gp b) →
      ∀ m, i.testBit m = true → (∀ c, c < m → i.testBit c = false) →
        rrobin_fresh n gp i = 2 ^ m) := by
  refine ⟨?_, ?_, ?_⟩
  · rintro rfl
    exact rrobin_fresh_zero_req n gp
  · intro m hm habove hmin
    rcases habove with ⟨k, hkm, hgpk⟩
    have hkn : k < n := by
      rcases hgp with h0 | ⟨k2, hk2, hgp2⟩
      · exfalso
        rw [h0] at hgpk
        have : (0 : Nat) < 2 ^ k := by positivity
        omega
      · have heq : (2 : Nat) ^ k = 2 ^ k2 := by
          rw [← hgpk, hgp2]
        have hkk : k = k2 := Nat.pow_right_injective (by norm_num) heq
        omega
    subst hgpk
    apply rrobin_fresh_eq_above hi hkn hm hkm
    intro c hc hcc
    exact hmin c hc ⟨hcc.1, ⟨k, hcc.2, rfl⟩⟩
  · intro hnone m hm hmin
    rcases hgp with h0 | ⟨k, _, hgpk⟩
    · subst h0
      exact rrobin_fresh_eq_wrap hi (eligible_zero_of_gp_zero n i) hm hmin
    · subst hgpk
      apply rrobin_fresh_eq_wrap hi (eligible_zero_of_no_above ?_) hm hmin
      intro b hb
      exact hnone ⟨b, hb.1, ⟨k, hb.2, rfl⟩⟩

/-- Witness for C3: width 2, `lastGrant` one-hot at 0, both requests
asserted — the fresh grant goes to requester 1. -/
theorem C3_round_robin_fresh_grant_witness :
    rrobin_fresh 2 1 3 = 2 ^ 1 :=
  (C3_round_robin_fresh_grant 2 1 3 (by decide)
      (Or.inr ⟨0, by decide, rfl⟩)).2.1 1 (by decide)
    ⟨0, by decide, rfl⟩ (by decide)

/-- C4: under WITHDRAW, while the previously granted requester still
asserts, output and register hold; once it withdraws, the fresh grant is
output and committed.  The claimed width-2 walk (grant 0b01, hold 0b01,
then 0b10, then 0) is reproduced exactly. -/
theorem C4_withdraw_policy :
    (∀ (n : Nat) (i : Nat → Nat) (en : Nat → Bool) (t : Nat),
      (i t &&& rrsel_gp n RobinPolicy.WITHDRAW i en t ≠ 0 →
        rrsel_out n RobinPolicy.WITHDRAW i en t =
          rrsel_gp n RobinPolicy.WITHDRAW i en t ∧
        rrsel_gp n RobinPolicy.WITHDRAW i en (t + 1) =
          rrsel_gp n RobinPolicy.WITHDRAW i en t) ∧
      (i t &&& rrsel_gp n RobinPolicy.WITHDRAW i en t = 0 →
        rrsel_out n RobinPolicy.WITHDRAW i en t =
          rrobin_fresh n (rrsel_gp n RobinPolicy.WITHDRAW i en t) (i t) ∧
        rrsel_gp n RobinPolicy.WITHDRAW i en (t + 1) =
          rrobin_fresh n (rrsel_gp n RobinPolicy.WITHDRAW i en t) (i t))) ∧
    (rrsel_out 2 RobinPolicy.WITHDRAW c4_reqs (fun _ => false) 0 = 1 ∧
     rrsel_out 2 RobinPolicy.WITHDRAW c4_reqs (fun _ => false) 1 = 1 ∧
     rrsel_out 2 RobinPolicy.WITHDRAW c4_reqs (fun _ => false) 2 = 2 ∧
     rrsel_out 2 RobinPolicy.WITHDRAW c4_reqs (fun _ => false) 3 = 0) := by
  constructor
  · intro n i en t
    constructor
    · intro h
      have hen : rrsel_en RobinPolicy.WITHDRAW (en t) (i t)
          (rrsel_gp n RobinPolicy.WITHDRAW i en t) = false := by
        show (!(i t &&& rrsel_gp n RobinPolicy.WITHDRAW i en t != 0)) = false
        have hb : (i t &&& rrsel_gp n RobinPolicy.WITHDRAW i en t != 0) = true := by
          simpa [bne_iff_ne] using h
        rw [hb]
        rfl
      constructor
      · show (if rrsel_en RobinPolicy.WITHDRAW (en t) (i t)
            (rrsel_gp n RobinPolicy.WITHDRAW i en t)
            then rrobin_fresh n (rrsel_gp n RobinPolicy.WITHDRAW i en t) (i t)
            else rrsel_gp n RobinPolicy.WITHDRAW i en t) = _
        rw [hen]
        simp
      · show (if rrsel_en RobinPolicy.WITHDRAW (en t) (i t)
            (rrsel_gp n RobinPolicy.WITHDRAW i en t)
            then rrobin_fresh n (rrsel_gp n RobinPolicy.WITHDRAW i en t) (i t)
            else rrsel_gp n RobinPolicy.WITHDRAW i en t) = _
        rw [hen]
        simp
    · intro h
      have hen : rrsel_en RobinPolicy.WITHDRAW (en t) (i t)
          (rrsel_gp n RobinPolicy.WITHDRAW i en t) = true := by
        show (!(i t &&& rrsel_gp n RobinPolicy.WITHDRAW i en t != 0)) = true
        have hb : (i t &&& rrsel_gp n RobinPolicy.WITHDRAW i en t != 0) = false := by
          simp [h]
        rw [hb]
        rfl
      constructor
      · show (if rrsel_en RobinPolicy.WITHDRAW (en t) (i t)
            (rrsel_gp n RobinPolicy.WITHDRAW i en t)
            then rrobin_fresh n (rrsel_gp n RobinPolicy.WITHDRAW i en t) (i t)
            else rrsel_gp n RobinPolicy.WITHDRAW i en t) = _
        rw [hen]
        simp
      · show (if rrsel_en RobinPolicy.WITHDRAW (en t) (i t)
            (rrsel_gp n RobinPolicy.WITHDRAW i en t)
            then rrobin_fresh n (rrsel_gp n RobinPolicy.WITHDRAW i en t) (i t)
            else rrsel_gp n RobinPolicy.WITHDRAW i en t) = _
        rw [hen]
        simp
  · exact ⟨by decide, by decide, by decide, by decide⟩

/-- Witness for C4: the hold branch at a concrete tick where requester 0
keeps asserting. -/
theorem C4_withdraw_policy_witness :
    rrsel_out 2 RobinPolicy.WITHDRAW (fun _ => 1) (fun _ => false) 1 =
      rrsel_gp 2 RobinPolicy.WITHDRAW (fun _ => 1) (fun _ => false) 1 ∧
    rrsel_gp 2 RobinPolicy.WITHDRAW (fun _ => 1) (fun _ => false) 2 =
      rrsel_gp 2 RobinPolicy.WITHDRAW (fun _ => 1) (fun _ => false) 1 :=
  (C4_withdraw_policy.1 2 (fun _ => 1) (fun _ => false) 1).1 (by decide)

/-- C5 counterexample: under CE, the output can change on a tick that does
not immediately follow an asserted-enable tick — here `en` is low at tick
0 and high at tick 1, and the output changes at tick 1 itself. -/
theorem C5_counterexample :
    rrsel_out 2 RobinPolicy.CE (fun _ => 1) (fun t => t == 1) 1 ≠
      rrsel_out 2 RobinPolicy.CE (fun _ => 1) (fun t => t == 1) 0 ∧
    (fun t : Nat => t == 1) 0 = false := by
  constructor
  · decide
  · rfl

/-- C5 (amended): under CE, on a disabled tick the output equals the
retained `lastGrant` and the register does not advance; consequently the
output can change only on a tick where `enable` is asserted (and the
register only into a tick following an enabled tick). -/
theorem C5_ce_hold (n : Nat) (i : Nat → Nat) (en : Nat → Bool) (t : Nat) :
    (en t = false →
      rrsel_out n RobinPolicy.CE i en t = rrsel_gp n RobinPolicy.CE i en t ∧
      rrsel_gp n RobinPolicy.CE i en (t + 1) = rrsel_gp n RobinPolicy.CE i en t) ∧
    (rrsel_out n RobinPolicy.CE i en (t + 1) ≠ rrsel_out n RobinPolicy.CE i en t →
      en (t + 1) = true) := by
  have hout : ∀ s, rrsel_out n RobinPolicy.CE i en s =
      if en s then rrobin_fresh n (rrsel_gp n RobinPolicy.CE i en s) (i s)
      else rrsel_gp n RobinPolicy.CE i en s := by
    intro s
    rfl
  have hgp : ∀ s, rrsel_gp n RobinPolicy.CE i en (s + 1) =
      if en s then rrobin_fresh n (rrsel_gp n RobinPolicy.CE i en s) (i s)
      else rrsel_gp n RobinPolicy.CE i en s := by
    intro s
    rfl
  constructor
  · intro hf
    rw [hout t, hgp t, hf]
    exact ⟨by simp, by simp⟩
  · intro hne
    by_contra hf
    apply hne
    have hf2 : en (t + 1) = false := Bool.eq_false_iff.mpr hf
    rw [hout (t + 1), hf2]
    simp only [Bool.false_eq_true, if_false]
    rw [hgp t, hout t]

/-- Witness for C5 (amended): a concrete disabled tick. -/
theorem C5_ce_hold_witness :
    rrsel_out 2 RobinPolicy.CE (fun _ => 3) (fun _ => false) 0 =
      rrsel_gp 2 RobinPolicy.CE (fun _ => 3) (fun _ => false) 0 ∧
    rrsel_gp 2 RobinPolicy.CE (fun _ => 3) (fun _ => false) 1 =
      rrsel_gp 2 RobinPolicy.CE (fun _ => 3) (fun _ => false) 0 :=
  (C5_ce_hold 2 (fun _ => 3) (fun _ => false) 0).1 rfl

/-- C6: the `coding.py` selector is indeed a same-tick function of the
current inputs and register (its output is literally defined
combinationally), but the claim also covers `arbiter.py`'s
RoundRobinArbiter, which on hold ticks drives `o` from the sync domain
(line 138) — and which in fact rejects every construction with an arity
`TypeError`, so its request-to-grant path never exists.  This theorem
evaluates the constructor at the failing input. -/
theorem C6_round_robin_arbiter_unconstructible :
    roundRobinArbiter_init (PyVal.int 2) (PyVal.pol RobinPolicy.CE) =
      Except.error "__init__() takes 2 positional arguments but 3 were given" :=
  rfl

/-- C7: ProgPriorityArbiter rejects every construction — even with valid
parameters — with an arity `TypeError` raised by
`super().__init__(self, n_req)`, so the tiered combinational grant the
claim (and the class docstring) describes is never produced.  This
theorem evaluates the constructor at the failing input
`ProgPriorityArbiter(4)`. -/
theorem C7_prog_priority_arbiter_unconstructible :
    progPriorityArbiter_init (PyVal.int 4) none =
      Except.error "__init__() takes 2 positional arguments but 3 were given" :=
  rfl

/-- C8: FairAmongEqualsArbiter rejects every construction — even with
valid parameters — with an arity `TypeError` raised by
`super().__init__(self, n_req)`; in addition its elaborate would call
`_rrobin_sel`, whose body reads the undefined name `grant_unwrap`.  This
theorem evaluates the constructor at the failing input
`FairAmongEqualsArbiter(4)`. -/
theorem C8_fair_among_equals_arbiter_unconstructible :
    fairAmongEqualsArbiter_init (PyVal.int 4) none =
      Except.error "__init__() takes 2 positional arguments but 3 were given" :=
  rfl

/-- C9 counterexample: in the FairAmongEqualsArbiter dataflow (width 2,
requester 0 at priority 0, requester 1 at priority 1, both asserting on
every tick and arbitration advancing every tick), requester 1 requests
continuously yet is granted in neither of the first `N = 2` arbitrated
rounds: the winning tier is always requester 0's. -/
theorem C9_counterexample :
    (3 : Nat).testBit 1 = true ∧
    faea_out 2 2 (fun _ => 3) (fun _ r => r) 0 ≠ 2 ^ 1 ∧
    faea_out 2 2 (fun _ => 3) (fun _ r => r) 1 ≠ 2 ^ 1 := by
  refine ⟨by decide, by decide, by decide⟩

/-- C9 (amended): a continuously asserted requester is granted within `N`
consecutive arbitrated rounds for RoundRobinSelector (stated for CE with
`enable` held true, and for the arbitrated-round subsequence that also
models WITHDRAW with withdrawing grantees, from any reachable register
state); for FairAmongEqualsArbiter the same bound holds only for a
requester that is continuously in the winning priority tier — a
requester outside it can be denied indefinitely (and the `arbiter.py`
implementation rejects every construction anyway). -/
theorem C9_no_starvation :
    (∀ (n : Nat) (i : Nat → Nat) (j : Nat),
      (∀ t, i t < 2 ^ n) → (∀ t, (i t).testBit j = true) →
      ∃ t, t < n ∧ rrsel_out n RobinPolicy.CE i (fun _ => true) t = 2 ^ j) ∧
    (∀ (n j : Nat) (r : Nat → Nat) (gp : Nat),
      (∀ t, r t < 2 ^ n) → (∀ t, (r t).testBit j = true) →
      (gp = 0 ∨ ∃ k, k < n ∧ gp = 2 ^ k) →
      ∃ t, t < n ∧ rrounds_out n r gp t = 2 ^ j) ∧
    (∀ (n max_pri : Nat) (i : Nat → Nat) (pri : Nat → Nat → Nat) (j : Nat),
      (∀ t, (level_muxed n max_pri (i t) (pri t)).testBit j = true) →
      ∃ t, t < n ∧ faea_out n max_pri i pri t = 2 ^ j) := by
  refine ⟨?_, ?_, ?_⟩
  · intro n i j hr hj
    rcases rr_liveness n j i 0 hr hj (Or.inl rfl) with ⟨t, ht, hout⟩
    refine ⟨t, ht, ?_⟩
    rw [rrsel_ce_out_eq_rrounds]
    exact hout
  · intro n j r gp hr hj hgp
    exact rr_liveness n j r gp hr hj hgp
  · intro n max_pri i pri j hj
    rcases rr_liveness n j (fun s => level_muxed n max_pri (i s) (pri s)) 0
      (fun t => level_muxed_lt n max_pri (i t) (pri t)) hj (Or.inl rfl)
      with ⟨t, ht, hout⟩
    refine ⟨t, ht, ?_⟩
    rw [faea_out_eq_rrounds]
    exact hout

/-- Witness for C9 (amended): width 1, the sole requester is granted in the
first round. -/
theorem C9_no_starvation_witness :
    ∃ t, t < 1 ∧ rrsel_out 1 RobinPolicy.CE (fun _ => 1) (fun _ => true) t = 2 ^ 0 := by
  apply C9_no_starvation.1 1 (fun _ => 1) 0
  · intro t
    show (1 : Nat) < 2 ^ 1
    decide
  · intro t
    show Nat.testBit 1 0 = true
    decide

/-- C10 counterexample: `RoundRobinEncoder` accepts an unrecognized policy
without any error (its `__init__` performs no validation), so construction
does not raise exactly when a parameter is invalid; conversely
`FairAmongEqualsArbiter` raises a `TypeError` for perfectly valid
parameters. -/
theorem C10_counterexample :
    roundRobinEncoder_init 4 (PyVal.str "bogus") = Except.ok () ∧
    fairAmongEqualsArbiter_init (PyVal.int 3) none =
      Except.error "__init__() takes 2 positional arguments but 3 were given" :=
  ⟨rfl, rfl⟩

/-- C10 (amended): only `RoundRobinSelector` validates eagerly and
correctly (error iff the policy is not a `RobinPolicy` or `n_reqs` is not
a positive integer, in that order); `PrioritySelector` and
`RoundRobinEncoder` perform no validation of their own and construct for
any arguments; every `arbiter.py` component rejects every construction
with an arity `TypeError` caused by `super().__init__(self, n_req)`. -/
theorem C10_construction_validation :
    (∀ nr pol, roundRobinSelector_init nr pol = Except.ok () ↔
      (isRobinPolicy pol = true ∧ isPosInt nr = true)) ∧
    (∀ (nr : Int) (pol : PyVal), roundRobinEncoder_init nr pol = Except.ok ()) ∧
    (∀ w : Int, prioritySelector_init w = Except.ok ()) ∧
    (∀ nr mp, progPriorityArbiter_init nr mp =
      Except.error "__init__() takes 2 positional arguments but 3 were given") ∧
    (∀ nr mp, fairAmongEqualsArbiter_init nr mp =
      Except.error "__init__() takes 2 positional arguments but 3 were given") ∧
    (∀ nr pol, roundRobinArbiter_init nr pol =
      Except.error "__init__() takes 2 positional arguments but 3 were given") := by
  refine ⟨?_, fun nr pol => rfl, fun w => rfl,
    fun nr mp => rfl, fun nr mp => rfl, fun nr pol => rfl⟩
  intro nr pol
  unfold roundRobinSelector_init
  rcases h1 : isRobinPolicy pol <;> rcases h2 : isPosInt nr <;> simp [h1, h2]

/-- Witness for C10 (amended): valid parameters construct, and the iff
rejects a garbage policy. -/
theorem C10_construction_validation_witness :
    roundRobinSelector_init (PyVal.int 4) (PyVal.pol RobinPolicy.CE) =
      Except.ok () ∧
    ¬ roundRobinSelector_init (PyVal.int 4) (PyVal.str "x") = Except.ok () :=
  ⟨(C10_construction_validation.1 (PyVal.int 4) (PyVal.pol RobinPolicy.CE)).mpr
      ⟨rfl, by decide⟩,
    fun h => by
      rcases (C10_construction_validation.1 (PyVal.int 4) (PyVal.str "x")).mp h
        with ⟨h1, _⟩
      exact absurd h1 (by decide)⟩

end Nmigen
